import Mathlib

/-!
Verification of the geometric-to-motion-program compiler and the plane
fitter of the NanoFactorySystem repository.

The embedding uses exact rational arithmetic (`ℚ`) in place of Python
floats.  Shapes are translated from
`nanofactorysystem/aerobasic/programs/drawings/lines.py`, the plane fitter
from `nanofactorysystem/tools/plane.py`.  An instruction program is a list
of `Instruction` values; the coordinate system is an opaque token that the
compiler threads through without inspecting, matching the source.
-/

namespace NFS

/-- `np.sign` of a rational, as used by `_Lines._direction`. -/
def sign (q : ℚ) : ℤ :=
  if 0 < q then 1 else if q < 0 then -1 else 0

/-- Python `round` (round half to even) on an exact rational. -/
def roundHalfEven (q : ℚ) : ℤ :=
  let f := ⌊q⌋
  let r := q - (f : ℚ)
  if r < 1/2 then f
  else if 1/2 < r then f + 1
  else if f % 2 = 0 then f else f + 1

/-- An axis-named coordinate mapping (insertion-ordered, like a Python
dict of axis name to value). -/
abbrev Coord := List (String × ℚ)

/-- A motion/laser instruction: `LINEAR` move, `GALVO_LASER_OVERRIDE`
gate, or a free-text comment, as emitted by `DrawableAeroBasicProgram`. -/
inductive Instruction where
  | move (coords : Coord) (F : Option ℚ) (E : Option ℚ)
  | laser (gateOn : Bool)
  | comment (text : String)
  deriving Repr, DecidableEq

/-- An instruction program: the ordered instruction list of a
`DrawableAeroBasicProgram`; `add_programm` is list append. -/
abbrev Program := List Instruction

/-- Python exceptions that the translated code can raise. -/
inductive PyError where
  /-- `IndexError`: indexing into an empty list. -/
  | indexError
  /-- The `ValueError("Direction mismatch. Line {i} ...")` raised by
  `_Lines._validate_lines`, carrying the offending index and the two
  conflicting segments (`lines[0]` and `lines[i]`). -/
  | directionMismatch (i : ℕ) (line0 linei : ℚ × ℚ)
  /-- `ZeroDivisionError`. -/
  | zeroDivision
  /-- `ValueError`: unpacking a string key `k` into a `(k, v)` pair while
  iterating a dict without `.items()`. -/
  | valueErrorUnpack (key : String)
  /-- `TypeError`: arithmetic on strings. -/
  | typeError
  deriving Repr, DecidableEq

/-! ## Laser-gate well-formedness -/

/-- Run the gate automaton over a program from gate state `on`; `none`
means the gate discipline is violated (opening an open gate or closing a
closed one); otherwise the final gate state is returned. -/
def runGate : Bool → Program → Option Bool
  | g, [] => some g
  | g, .laser true :: rest => if g then none else runGate true rest
  | g, .laser false :: rest => if g then runGate false rest else none
  | g, .move _ _ _ :: rest => runGate g rest
  | g, .comment _ :: rest => runGate g rest

/-- A program is well-gated when, starting with the laser off, every
`LaserGate(on)` is followed by exactly one `LaserGate(off)` with no gate
instruction in between, and the program ends with the laser off. -/
def wellGated (p : Program) : Bool := runGate false p = some false

theorem runGate_append (p q : Program) (s : Bool) :
    runGate s (p ++ q) = (runGate s p).bind (fun s' => runGate s' q) := by
  induction p generalizing s with
  | nil => rfl
  | cons i rest ih =>
    cases i with
    | move c f e => simpa using ih s
    | laser b =>
      cases b <;> cases s <;> simp [runGate, ih]
    | comment t => simpa using ih s

theorem wellGated_append {p q : Program} (hp : wellGated p) (hq : wellGated q) :
    wellGated (p ++ q) := by
  unfold wellGated at *
  rw [runGate_append]
  simp only [decide_eq_true_eq] at hp hq ⊢
  rw [hp]
  simpa using hq

theorem wellGated_nil : wellGated [] := by decide

theorem wellGated_comment_cons {p : Program} (t : String) (hp : wellGated p) :
    wellGated (.comment t :: p) := by
  unfold wellGated at *
  simpa [runGate] using hp

/-! ## Monotone line sweeps (`_Lines`, `XLines`, `YLines`) -/

/-- `_Lines._direction`: `np.sign(line[1] - line[0])`. -/
def direction (seg : ℚ × ℚ) : ℤ := sign (seg.2 - seg.1)

/-- The loop body of `_Lines._validate_lines`: check the segments of
`ls` (carrying the running index `k`, starting at 1) against the
direction of segment `l0`; raise `ValueError` at the first mismatch. -/
def checkLines (l0 : ℚ × ℚ) : ℕ → List (ℚ × ℚ) → Except PyError Unit
  | _, [] => .ok ()
  | k, l :: rest =>
    if direction l = direction l0 then checkLines l0 (k + 1) rest
    else .error (.directionMismatch k l0 l)

/-- `_Lines._validate_lines`, run by `_Lines.__init__` before any field
is stored (hence before any `draw_on` call is possible): segment 0 fixes
the direction, each later segment must match it.  An empty list raises
`IndexError` at `lines[0]`. -/
def validateLines : List (ℚ × ℚ) → Except PyError Unit
  | [] => .error .indexError
  | l0 :: rest => checkLines l0 1 rest

/-- `_Lines.__init__` for the X/Y sweep variants: validate, then store
the fields.  Construction fails exactly when validation fails. -/
def mkLines (lines : List (ℚ × ℚ)) (secondary : Coord) (velocity acceleration : ℚ) :
    Except PyError (List (ℚ × ℚ) × Coord × ℚ × ℚ) := do
  let _ ← validateLines lines
  .ok (lines, secondary, velocity, acceleration)

/-- The kinematic lead distance `velocity ** 2 / (2 * acceleration)`
computed by `_Lines.draw_on`. -/
def leadDistance (velocity acceleration : ℚ) : ℚ :=
  velocity ^ 2 / (2 * acceleration)

/-- The gated program emitted for one segment by the loop of
`_Lines.draw_on`. -/
def segmentProgram (axis : String) (velocity : ℚ) (seg : ℚ × ℚ) : Program :=
  [.move [(axis, seg.1)] (some velocity) none,
   .laser true,
   .move [(axis, seg.2)] (some velocity) none,
   .laser false]

/-- `_Lines.draw_on`: an approach move to
`lines[0][0] - direction * lead` (with the secondary position appended
to the coordinate dict), the gated segments, and a departure move to
`lines[-1][1] + direction * lead`.  `IndexError` on an empty segment
list (`lines[0]`). -/
def linesDrawOn (axis : String) (secondary : Coord) (velocity acceleration : ℚ)
    (lines : List (ℚ × ℚ)) : Except PyError Program :=
  match lines with
  | [] => .error .indexError
  | l0 :: rest =>
    let accelerationDistance := leadDistance velocity acceleration
    let dir : ℚ := (direction l0 : ℚ)
    let startValue := l0.1 - dir * accelerationDistance
    let lastSeg := (l0 :: rest).getLast (List.cons_ne_nil l0 rest)
    let endValue := lastSeg.2 + dir * accelerationDistance
    .ok ([.move ((axis, startValue) :: secondary) (some velocity) none]
      ++ (l0 :: rest).flatMap (segmentProgram axis velocity)
      ++ [.move ((axis, endValue) :: secondary) (some velocity) none])

theorem checkLines_ok_iff (l0 : ℚ × ℚ) (k : ℕ) (ls : List (ℚ × ℚ)) :
    checkLines l0 k ls = .ok () ↔ ∀ l ∈ ls, direction l = direction l0 := by
  induction ls generalizing k with
  | nil => simp [checkLines]
  | cons l rest ih =>
    by_cases h : direction l = direction l0 <;>
      simp [checkLines, h, ih (k + 1)]

/-- If the segments of `pre` all match the direction of `l0` and `li`
does not, the validation loop stops at `li` and reports index
`k + pre.length` together with `l0` and `li`. -/
theorem checkLines_first_mismatch (l0 li : ℚ × ℚ) (k : ℕ)
    (pre post : List (ℚ × ℚ))
    (hpre : ∀ l ∈ pre, direction l = direction l0)
    (hli : direction li ≠ direction l0) :
    checkLines l0 k (pre ++ li :: post) =
      .error (.directionMismatch (k + pre.length) l0 li) := by
  induction pre generalizing k with
  | nil => simp [checkLines, hli]
  | cons l rest ih =>
    have hl : direction l = direction l0 := hpre l (by simp)
    have hrest : ∀ l ∈ rest, direction l = direction l0 :=
      fun l hm => hpre l (by simp [hm])
    simp only [List.cons_append, checkLines, hl, if_pos rfl, if_true,
      List.append_eq]
    rw [ih (k + 1) hrest]
    congr 2
    simp
    omega

/-! ## Claims C1 and C2 -/

/-- C1 counterexample: in the list `[(1,0), (2,3), (4,5)]` exactly one
segment — segment 0 — has a direction sign differing from all the
others, yet construction reports index 1 (the first segment that
disagrees with segment 0) together with segments 0 and 1, not index 0 as
the claim requires. -/
theorem validateLines_names_wrong_index_when_segment0_is_odd :
    validateLines [((1 : ℚ), (0 : ℚ)), (2, 3), (4, 5)] =
      .error (.directionMismatch 1 (1, 0) (2, 3)) ∧
    direction ((1 : ℚ), (0 : ℚ)) ≠ direction ((2 : ℚ), (3 : ℚ)) ∧
    direction ((2 : ℚ), (3 : ℚ)) = direction ((4 : ℚ), (5 : ℚ)) ∧
    (1 : ℕ) ≠ 0 := by
  refine ⟨?_, ?_, ?_, by decide⟩
  · norm_num [validateLines, checkLines, direction, sign]
  · norm_num [direction, sign]
  · norm_num [direction, sign]

/-- C1 (amended): construction of a sweep (`mkLines`, which runs
`_validate_lines` before storing any field, hence before any lowering
call) succeeds iff every segment's direction sign equals that of
segment 0; when validation fails, the error names the first index
`i ≥ 1` whose sign disagrees with segment 0 — so when the sole differing
segment is segment `i ≥ 1` the error names `i` with segments 0 and `i`,
but when segment 0 itself is the odd one out the error names index 1. -/
theorem mkLines_direction_validation (secondary : Coord) (v a : ℚ) :
    (∀ (l0 : ℚ × ℚ) (rest : List (ℚ × ℚ)),
      mkLines (l0 :: rest) secondary v a = .ok (l0 :: rest, secondary, v, a)
        ↔ ∀ l ∈ l0 :: rest, direction l = direction l0) ∧
    (∀ (l0 li : ℚ × ℚ) (pre post : List (ℚ × ℚ)),
      (∀ l ∈ pre, direction l = direction l0) →
      direction li ≠ direction l0 →
      mkLines (l0 :: (pre ++ li :: post)) secondary v a =
        .error (.directionMismatch (1 + pre.length) l0 li)) := by
  constructor
  · intro l0 rest
    simp only [mkLines, validateLines, bind, Except.bind]
    cases h : checkLines l0 1 rest with
    | error e =>
      simp only [reduceCtorEq, false_iff]
      intro hall
      have : checkLines l0 1 rest = .ok () :=
        (checkLines_ok_iff l0 1 rest).mpr (fun l hl => hall l (by simp [hl]))
      rw [h] at this
      exact absurd this (by simp)
    | ok u =>
      cases u
      simp only [Except.ok.injEq, true_iff, true_and]
      intro l hl
      rcases List.mem_cons.mp hl with rfl | hl
      · rfl
      · exact (checkLines_ok_iff l0 1 rest).mp h l hl
  · intro l0 li pre post hpre hli
    simp only [mkLines, validateLines, bind, Except.bind]
    rw [checkLines_first_mismatch l0 li 1 pre post hpre hli]

/-- Witness for C1: a valid two-segment ascending sweep constructs, and
flipping segment 1 makes construction fail naming index 1 and both
conflicting segments. -/
theorem mkLines_direction_validation_witness :
    mkLines [((0 : ℚ), (1 : ℚ)), (2, 3)] [] 200 1000 =
      .ok ([(0, 1), (2, 3)], [], 200, 1000) ∧
    mkLines [((0 : ℚ), (1 : ℚ)), (3, 2)] [] 200 1000 =
      .error (.directionMismatch 1 (0, 1) (3, 2)) :=
  ⟨((mkLines_direction_validation [] 200 1000).1 (0, 1) [(2, 3)]).mpr
      (by norm_num [direction, sign]),
    (mkLines_direction_validation [] 200 1000).2 (0, 1) (3, 2) [] []
      (by simp) (by norm_num [direction, sign])⟩

/-- C2: lowering a sweep emits as its first instruction a move to the
first segment's start offset backwards by the lead distance
`velocity ^ 2 / (2 * acceleration)` along the direction of travel, and
as its last instruction a move to the last segment's end offset forwards
by the same distance; with velocity 200 and acceleration 1000 the lead
distance is exactly 20. -/
theorem linesDrawOn_lead_in_out (axis : String) (secondary : Coord)
    (v a : ℚ) (l0 : ℚ × ℚ) (rest : List (ℚ × ℚ)) :
    (∃ p, linesDrawOn axis secondary v a (l0 :: rest) = .ok p ∧
      p.head? = some (.move
        ((axis, l0.1 - (direction l0 : ℚ) * leadDistance v a) :: secondary)
        (some v) none) ∧
      p.getLast? = some (.move
        ((axis, ((l0 :: rest).getLast (List.cons_ne_nil l0 rest)).2 +
            (direction l0 : ℚ) * leadDistance v a) :: secondary)
        (some v) none)) ∧
    leadDistance 200 1000 = 20 := by
  refine ⟨⟨_, rfl, ?_, ?_⟩, ?_⟩
  · rfl
  · exact List.getLast?_concat _
  · norm_num [leadDistance]

/-! ## PolyLine and PolyLines -/

/-- `PolyLine.draw_on`: move to the first point, gate on, move through
the remaining points, gate off.  `IndexError` on an empty point list
(`self.line[0]`). -/
def polyLineDrawOn (line : List Coord) (F E : Option ℚ) : Except PyError Program :=
  match line with
  | [] => .error .indexError
  | c0 :: rest =>
    .ok ([.move c0 F E, .laser true]
      ++ rest.map (fun c => .move c F E)
      ++ [.laser false])

/-- The loop of `PolyLines.draw_on`: for each contained line, append a
comment naming its index and then the line's own `PolyLine` program. -/
def polyLinesAux (F E : Option ℚ) : ℕ → List (List Coord) → Except PyError Program
  | _, [] => .ok []
  | i, l :: rest => do
    let p ← polyLineDrawOn l F E
    let q ← polyLinesAux F E (i + 1) rest
    .ok ((.comment s!"\n[Polyline] - Draw line {i}:" :: p) ++ q)

/-- `PolyLines.draw_on`. -/
def polyLinesDrawOn (lines : List (List Coord)) (F E : Option ℚ) :
    Except PyError Program :=
  polyLinesAux F E 0 lines

/-- `PolyLine.center_point` / `PolyLines.center_point` after the
per-axis value lists have been gathered: the comprehension
`{k: np.min(v) for k, v in values}` iterates the dict `values` itself
rather than `values.items()`, so it iterates the axis-name keys and
tries to unpack each key string into a `(k, v)` pair.  A key whose
length is not 2 raises `ValueError` at the first such key; if every key
has length 2 the unpacking yields two characters and the later
arithmetic `(min_coord[k] + max_coord[k]) / 2` on strings raises
`TypeError`.  The function can therefore never return a point. -/
def centerPointFromKeys (keys : List String) : Except PyError Coord :=
  match keys.find? (fun k => k.length != 2) with
  | some k => .error (.valueErrorUnpack k)
  | none => .error .typeError

/-- `PolyLine.center_point`: the axis keys are those of the first
coordinate (`self.line[0]`); assumes the claim's precondition that all
coordinates share one axis key set (otherwise a `KeyError` could occur
even earlier). -/
def polyLineCenterPoint (line : List Coord) : Except PyError Coord :=
  match line with
  | [] => .error .indexError
  | c0 :: _ => centerPointFromKeys (c0.map Prod.fst)

/-- `PolyLines.center_point`: keys come from `self.lines[0][0]`. -/
def polyLinesCenterPoint (lines : List (List Coord)) : Except PyError Coord :=
  match lines with
  | [] => .error .indexError
  | [] :: _ => .error .indexError
  | (c0 :: _) :: _ => centerPointFromKeys (c0.map Prod.fst)

/-- C9: `center_point` never returns the bounding-box center — it
raises for every input.  On the two-point polyline
`[{"X": 0, "Y": 0}, {"X": 2, "Y": 4}]` the claim expects the center
`{"X": 1, "Y": 2}`, but the dict-iteration bug (`for k, v in values`
instead of `values.items()`) makes the code unpack the one-character
axis key `"X"` into a pair, raising `ValueError`; likewise for
`PolyLines`. -/
theorem centerPoint_raises_on_single_letter_axes :
    polyLineCenterPoint [[("X", (0 : ℚ)), ("Y", 0)], [("X", 2), ("Y", 4)]] =
      .error (.valueErrorUnpack "X") ∧
    polyLinesCenterPoint [[[("X", (0 : ℚ)), ("Y", 0)], [("X", 2), ("Y", 4)]]] =
      .error (.valueErrorUnpack "X") := by
  constructor <;> rfl

/-! ## HatchedCorner (`Corner`) -/

/-- Modelled from the spec: `Point2D.rotate2D` (from the
`coordinate_system` module, which is not part of the sources) applies
the standard 2D rotation matrix.  Because the embedding is over `ℚ` the
angle is represented by its cosine `c` and sine `s`. -/
def rotate2D (c s x y : ℚ) : ℚ × ℚ := (c * x - s * y, s * x + c * y)

/-- Modelled from numpy's documented semantics: `np.arange(0, stop,
step)` for a positive `step` is `[0, step, 2*step, ...]` up to but
excluding `stop`, i.e. `⌈stop/step⌉` values (exact arithmetic; the
floating-point end-point caveat of `np.arange` does not arise over
`ℚ`). -/
def arange (stop step : ℚ) : List ℚ :=
  if 0 < step then
    (List.range (Int.toNat ⌈stop / step⌉)).map (fun k : ℕ => (k : ℚ) * step)
  else []

/-- The fields of a `Corner` (hatch-filled corner drawable).  The
rotation is stored as the cosine/sine pair of `rotation_rad`. -/
structure Corner where
  cx : ℚ
  cy : ℚ
  cz : ℚ
  length : ℚ
  width : ℚ
  height : ℚ
  hatchSize : ℚ
  layerHeight : ℚ
  rotC : ℚ
  rotS : ℚ
  F : Option ℚ
  E : Option ℚ
  deriving Repr

/-- The three-point dict path `as_dict()` of `Point3D`. -/
def strokeDict (x y z : ℚ) : Coord := [("X", x), ("Y", y), ("Z", z)]

/-- The base (unreversed) stroke `[p1, p2, p3]` of `Corner.single_layer`
for stroke index `i`: the rotated L-turn through the diagonal offset
`-(i - n/2) * hatch` and the arm offset `length - width/2`, translated
to the layer's corner center. -/
def strokeBase (cx cy cz length width hatch c s : ℚ) (n i : ℕ) : List Coord :=
  let cd : ℚ := -((i : ℚ) - (n : ℚ) / 2) * hatch
  let off : ℚ := length - width / 2
  let q1 := rotate2D c s off cd
  let q2 := rotate2D c s cd cd
  let q3 := rotate2D c s cd off
  [strokeDict (cx + q1.1) (cy + q1.2) cz,
   strokeDict (cx + q2.1) (cy + q2.2) cz,
   strokeDict (cx + q3.1) (cy + q3.2) cz]

/-- `Corner.single_layer`: `n` strokes; stroke `i` keeps the order
`[p1, p2, p3]` when `(i + change_start) % 2 == 0` and is reversed to
`[p3, p2, p1]` otherwise. -/
def singleLayerStrokes (cx cy cz length width hatch c s : ℚ) (n : ℕ)
    (changeStart : Bool) : List (List Coord) :=
  (List.range n).map (fun i =>
    if (i + (if changeStart then 1 else 0)) % 2 = 0 then
      strokeBase cx cy cz length width hatch c s n i
    else (strokeBase cx cy cz length width hatch c s n i).reverse)

/-- `n = round(self.width / self.hatch_size) + 1` of `Corner.draw_on`. -/
def cornerN (c : Corner) : ℤ := roundHalfEven (c.width / c.hatchSize) + 1

/-- The layer loop of `Corner.draw_on`: one stroke list per z value,
with `change_start` starting at `False` and negated after each layer. -/
def cornerLayersAux (c : Corner) (n : ℕ) (hatch : ℚ) :
    Bool → List ℚ → List (List (List Coord))
  | _, [] => []
  | b, z :: zs =>
    singleLayerStrokes c.cx c.cy (c.cz + z) c.length c.width hatch c.rotC c.rotS n b
      :: cornerLayersAux c n hatch (!b) zs

/-- The per-layer stroke lists produced by `Corner.draw_on`: layers at
the z values `np.arange(0, height, layer_height)`, using the corrected
hatch pitch `width / (n - 1)`. -/
def cornerLayers (c : Corner) : List (List (List Coord)) :=
  cornerLayersAux c (cornerN c).toNat (c.width / ((cornerN c : ℚ) - 1)) false
    (arange c.height c.layerHeight)

/-- Lower a list of layers: each layer is drawn via
`PolyLines(lines).draw_on` and appended to the program. -/
def layersProgram (F E : Option ℚ) : List (List (List Coord)) → Except PyError Program
  | [] => .ok []
  | layer :: rest => do
    let p ← polyLinesDrawOn layer F E
    let q ← layersProgram F E rest
    .ok (p ++ q)

/-- `Corner.draw_on`: computes `n`, then `width / (n - 1)` — a Python
`ZeroDivisionError` when `n = 1` — and then lowers every layer. -/
def cornerDrawOn (c : Corner) : Except PyError Program :=
  if (cornerN c) - 1 = 0 then .error .zeroDivision
  else layersProgram c.F c.E (cornerLayers c)

/-! ## SingleLine, CornerRectangle, VerticalLine -/

/-- `SingleLine.draw_on`: a trivial two-point gated segment. -/
def singleLineDrawOn (start stop : Coord) (F E : Option ℚ) : Program :=
  [.move start F E, .laser true, .move stop F E, .laser false]

/-- One corner of a `CornerRectangle` at offset `(ox, oy)` from the
rectangle center, with rotation given by its cosine/sine pair. -/
def rectCorner (cx cy cz ox oy cornerLength cornerWidth height layerHeight
    hatchSize rc rs : ℚ) (F E : Option ℚ) : Corner :=
  { cx := cx + ox, cy := cy + oy, cz := cz
    length := cornerLength, width := cornerWidth, height := height
    hatchSize := hatchSize, layerHeight := layerHeight
    rotC := rc, rotS := rs, F := F, E := E }

/-- `CornerRectangle.draw_on`: four `Corner` programs at the four
rectangle corners — top-left (rotation 0°), top-right (90°),
bottom-right (180°), bottom-left (270°) — each preceded by an
identifying comment, concatenated in that order.  The rotation angles
0°, 90°, 180°, 270° appear as their exact cosine/sine pairs. -/
def cornerRectDrawOn (cx cy cz rectWidth rectHeight cornerLength cornerWidth
    height layerHeight hatchSize : ℚ) (F E : Option ℚ) : Except PyError Program := do
  let tl := rectCorner cx cy cz (-rectWidth / 2) (-rectHeight / 2)
    cornerLength cornerWidth height layerHeight hatchSize 1 0 F E
  let tr := rectCorner cx cy cz (rectWidth / 2) (-rectHeight / 2)
    cornerLength cornerWidth height layerHeight hatchSize 0 1 F E
  let br := rectCorner cx cy cz (rectWidth / 2) (rectHeight / 2)
    cornerLength cornerWidth height layerHeight hatchSize (-1) 0 F E
  let bl := rectCorner cx cy cz (-rectWidth / 2) (rectHeight / 2)
    cornerLength cornerWidth height layerHeight hatchSize 0 (-1) F E
  let ptl ← cornerDrawOn tl
  let ptr ← cornerDrawOn tr
  let pbr ← cornerDrawOn br
  let pbl ← cornerDrawOn bl
  .ok ((.comment "\nDrawing Top Left corner" :: ptl)
    ++ (.comment "\nDrawing Top Right corner" :: ptr)
    ++ (.comment "\nDrawing Bottom Right corner" :: pbr)
    ++ (.comment "\nDrawing Bottom Left corner" :: pbl))

/-- `VerticalLine.draw_on`: a gated single-axis z sweep at fixed x, y. -/
def verticalLineDrawOn (px py zMin zMax : ℚ) (F : Option ℚ) : Program :=
  [.move [("X", px), ("Y", py), ("Z", zMin)] F none,
   .laser true,
   .move [("X", px), ("Y", py), ("Z", zMax)] F none,
   .laser false]

/-! ## Layer structure of `Corner.draw_on` (C4, C5, C10) -/

theorem cornerLayersAux_length (c : Corner) (n : ℕ) (hatch : ℚ) (b : Bool)
    (zs : List ℚ) : (cornerLayersAux c n hatch b zs).length = zs.length := by
  induction zs generalizing b with
  | nil => rfl
  | cons z zs ih => simp [cornerLayersAux, ih]

theorem cornerLayersAux_getElem? (c : Corner) (n : ℕ) (hatch : ℚ) (b : Bool)
    (zs : List ℚ) (j : ℕ) :
    (cornerLayersAux c n hatch b zs)[j]? = (zs[j]?).map (fun z =>
      singleLayerStrokes c.cx c.cy (c.cz + z) c.length c.width hatch c.rotC c.rotS n
        (xor b (decide (j % 2 = 1)))) := by
  induction zs generalizing b j with
  | nil => simp [cornerLayersAux]
  | cons z zs ih =>
    cases j with
    | zero => simp [cornerLayersAux]
    | succ j =>
      have hflag : xor (!b) (decide (j % 2 = 1)) =
          xor b (decide ((j + 1) % 2 = 1)) := by
        rcases Nat.mod_two_eq_zero_or_one j with h2 | h2 <;>
          cases b <;> simp [Nat.add_mod, h2]
      simp only [cornerLayersAux, List.getElem?_cons_succ, ih (!b) j, hflag]

theorem cornerLayers_length (c : Corner) :
    (cornerLayers c).length = (arange c.height c.layerHeight).length :=
  cornerLayersAux_length ..

theorem arange_length (stop step : ℚ) (h : 0 < step) :
    (arange stop step).length = (⌈stop / step⌉).toNat := by
  rw [arange, if_pos h, List.length_map, List.length_range]

theorem arange_getElem? (stop step : ℚ) (k : ℕ)
    (hk : k < (arange stop step).length) :
    (arange stop step)[k]? = some ((k : ℚ) * step) := by
  by_cases h : 0 < step
  · rw [arange, if_pos h] at hk ⊢
    rw [List.length_map, List.length_range] at hk
    rw [List.getElem?_map, List.getElem?_range hk]
    rfl
  · rw [arange, if_neg h] at hk
    simp at hk

theorem singleLayerStrokes_length (cx cy cz length width hatch c s : ℚ)
    (n : ℕ) (b : Bool) :
    (singleLayerStrokes cx cy cz length width hatch c s n b).length = n := by
  simp [singleLayerStrokes]

theorem singleLayerStrokes_getElem? (cx cy cz length width hatch c s : ℚ)
    (n : ℕ) (b : Bool) (i : ℕ) (hi : i < n) :
    (singleLayerStrokes cx cy cz length width hatch c s n b)[i]? =
      some (if (i + (if b then 1 else 0)) % 2 = 0 then
        strokeBase cx cy cz length width hatch c s n i
      else (strokeBase cx cy cz length width hatch c s n i).reverse) := by
  simp [singleLayerStrokes, List.getElem?_map, List.getElem?_range, hi]

theorem singleLayerStrokes_stroke_length (cx cy cz length width hatch c s : ℚ)
    (n : ℕ) (b : Bool) :
    ∀ stroke ∈ singleLayerStrokes cx cy cz length width hatch c s n b,
      stroke.length = 3 := by
  intro stroke hm
  simp only [singleLayerStrokes, List.mem_map] at hm
  obtain ⟨i, -, rfl⟩ := hm
  by_cases h : (i + (if b then 1 else 0)) % 2 = 0 <;>
    simp [h, strokeBase]

/-- C4: layer `k` of a lowered `HatchedCorner` consists of exactly
`n = round(width / hatch_size) + 1` three-point strokes at the
recomputed pitch `width / (n - 1)`, and the stroke at index `i` is
emitted in reversed point order iff `(i + k) % 2 = 1` (serpentine:
`change_start` starts at false and toggles each layer); for width 5 and
hatch size 0.5 this gives `n = 11` strokes at pitch exactly 0.5. -/
theorem cornerLayers_serpentine (c : Corner) (k i : ℕ)
    (hround : 1 ≤ roundHalfEven (c.width / c.hatchSize))
    (hk : k < (cornerLayers c).length)
    (hi : i < (cornerN c).toNat) :
    (∃ layer, (cornerLayers c)[k]? = some layer ∧
      layer.length = (cornerN c).toNat ∧
      (∀ stroke ∈ layer, stroke.length = 3) ∧
      layer[i]? = some (
        if (i + k) % 2 = 1 then
          (strokeBase c.cx c.cy (c.cz + (k : ℚ) * c.layerHeight) c.length c.width
            (c.width / ((cornerN c : ℚ) - 1)) c.rotC c.rotS (cornerN c).toNat i).reverse
        else
          strokeBase c.cx c.cy (c.cz + (k : ℚ) * c.layerHeight) c.length c.width
            (c.width / ((cornerN c : ℚ) - 1)) c.rotC c.rotS (cornerN c).toNat i)) ∧
    cornerN c = roundHalfEven (c.width / c.hatchSize) + 1 ∧
    (c.width = 5 ∧ c.hatchSize = 1/2 →
      (cornerN c).toNat = 11 ∧ c.width / ((cornerN c : ℚ) - 1) = 1/2) := by
  refine ⟨?_, rfl, ?_⟩
  · rw [cornerLayers_length] at hk
    have hzval := arange_getElem? c.height c.layerHeight k hk
    refine ⟨singleLayerStrokes c.cx c.cy (c.cz + (k : ℚ) * c.layerHeight)
        c.length c.width (c.width / ((cornerN c : ℚ) - 1)) c.rotC c.rotS
        (cornerN c).toNat (xor false (decide (k % 2 = 1))), ?_,
      singleLayerStrokes_length _ _ _ _ _ _ _ _ _ _,
      fun st hm => singleLayerStrokes_stroke_length _ _ _ _ _ _ _ _ _ _ st hm,
      ?_⟩
    · show (cornerLayers c)[k]? = _
      rw [cornerLayers, cornerLayersAux_getElem?, hzval, Option.map_some']
    · rw [singleLayerStrokes_getElem? _ _ _ _ _ _ _ _ _ _ _ hi]
      rcases Nat.mod_two_eq_zero_or_one k with h2 | h2 <;>
        rcases Nat.mod_two_eq_zero_or_one i with hi2 | hi2 <;>
          simp [h2, hi2, Nat.add_mod]
  · rintro ⟨hw, hh⟩
    have hq : c.width / c.hatchSize = (10 : ℚ) := by rw [hw, hh]; norm_num
    have hr : roundHalfEven (10 : ℚ) = 10 := by
      have h10 : ⌊(10 : ℚ)⌋ = 10 := by norm_num
      simp only [roundHalfEven, h10]
      norm_num
    have hn : cornerN c = 11 := by simp [cornerN, hq, hr]
    refine ⟨by simp [hn], ?_⟩
    rw [hn, hw]
    norm_num

/-- Witness for C4: a concrete corner (width 5, hatch size 0.5, height
3, layer height 0.75) at layer 1, stroke 2: the stroke is emitted
forward since `(2 + 1) % 2 = 1` selects the reversed branch — layer 1
starts reversed and alternates. -/
def cornerExample : Corner :=
  ⟨0, 0, 0, 10, 5, 3, 1/2, 3/4, 1, 0, none, none⟩

theorem cornerLayers_serpentine_witness :
    ∃ layer, (cornerLayers cornerExample)[1]? = some layer ∧
      layer.length = 11 ∧
      layer[2]? = some ((strokeBase 0 0 (3/4) 10 5 (1/2) 1 0 11 2).reverse) := by
  have hq : cornerExample.width / cornerExample.hatchSize = (10 : ℚ) := by
    norm_num [cornerExample]
  have h10 : ⌊(10 : ℚ)⌋ = 10 := by norm_num
  have hr : roundHalfEven (10 : ℚ) = 10 := by
    simp only [roundHalfEven, h10]
    norm_num
  have hround : 1 ≤ roundHalfEven (cornerExample.width / cornerExample.hatchSize) := by
    rw [hq, hr]
    norm_num
  have hnz : cornerN cornerExample = 11 := by
    rw [cornerN, hq, hr]
    decide
  have hn : (cornerN cornerExample).toNat = 11 := by rw [hnz]; rfl
  have hk : 1 < (cornerLayers cornerExample).length := by
    rw [cornerLayers_length, arange_length _ _ (by norm_num [cornerExample])]
    have hc : ⌈cornerExample.height / cornerExample.layerHeight⌉ = 4 := by
      norm_num [cornerExample]
    rw [hc]
    decide
  have hpitch : cornerExample.width / ((cornerN cornerExample : ℚ) - 1) = 1/2 := by
    rw [hnz]
    norm_num [cornerExample]
  obtain ⟨layer, hget, hlen, -, hstroke⟩ :=
    (cornerLayers_serpentine cornerExample 1 2 hround hk (by rw [hn]; omega)).1
  refine ⟨layer, hget, by rw [hlen, hn], ?_⟩
  rw [hstroke, hn, hpitch]
  norm_num [cornerExample]

/-- C5: lowering a `HatchedCorner` with positive height and layer height
emits exactly `⌈height / layer_height⌉` layers, the k-th of which sits
at z offset `k * layer_height` from the corner center (C4 shows layer
`k`'s strokes are drawn at `cz + k * layer_height`); height 3 with layer
height 0.75 gives 4 layers at z offsets 0, 0.75, 1.5, 2.25. -/
theorem cornerLayers_count (c : Corner) (hH : 0 < c.height)
    (hL : 0 < c.layerHeight) :
    (cornerLayers c).length = (⌈c.height / c.layerHeight⌉).toNat ∧
    (∀ k, k < (cornerLayers c).length →
      (arange c.height c.layerHeight)[k]? = some ((k : ℚ) * c.layerHeight)) ∧
    (c.height = 3 ∧ c.layerHeight = 3/4 →
      arange c.height c.layerHeight = [0, 3/4, 3/2, 9/4]) := by
  refine ⟨by rw [cornerLayers_length, arange_length _ _ hL], ?_, ?_⟩
  · intro k hk
    rw [cornerLayers_length] at hk
    exact arange_getElem? _ _ _ hk
  · rintro ⟨h3, h34⟩
    rw [h3, h34]
    have hc : ⌈(3 : ℚ) / (3/4)⌉ = 4 := by norm_num
    rw [arange, if_pos (by norm_num), hc]
    have hr : List.range (4 : ℤ).toNat = [0, 1, 2, 3] := rfl
    rw [hr]
    norm_num

/-- Witness for C5: the example corner (height 3, layer height 0.75)
yields 4 layers at z offsets 0, 0.75, 1.5, 2.25. -/
theorem cornerLayers_count_witness :
    (cornerLayers cornerExample).length = 4 ∧
    arange cornerExample.height cornerExample.layerHeight = [0, 3/4, 3/2, 9/4] := by
  have h := cornerLayers_count cornerExample (by norm_num [cornerExample])
    (by norm_num [cornerExample])
  refine ⟨?_, h.2.2 ⟨rfl, rfl⟩⟩
  rw [h.1]
  have hc : ⌈cornerExample.height / cornerExample.layerHeight⌉ = 4 := by
    norm_num [cornerExample]
  rw [hc]
  rfl

/-- C10: when `width / hatch_size` lies in `[0, 1/2)` (so
`round(width / hatch_size) = 0` and `n = 1`), `Corner.draw_on` raises
`ZeroDivisionError` at `width / (n - 1)` instead of producing an
instruction program, even though the height is positive. -/
theorem cornerDrawOn_zero_division (c : Corner)
    (h0 : 0 ≤ c.width / c.hatchSize)
    (hlt : c.width / c.hatchSize < 1/2)
    (hH : 0 < c.height) :
    cornerDrawOn c = .error .zeroDivision := by
  have hfloor : ⌊c.width / c.hatchSize⌋ = 0 := by
    rw [Int.floor_eq_zero_iff]
    exact ⟨h0, by linarith⟩
  have hround : roundHalfEven (c.width / c.hatchSize) = 0 := by
    simp only [roundHalfEven, hfloor, Int.cast_zero, sub_zero]
    rw [if_pos hlt]
  have hn : cornerN c - 1 = 0 := by
    rw [cornerN, hround]
    decide
  rw [cornerDrawOn, if_pos hn]

/-- Witness for C10: width 1 with hatch size 3 (ratio 1/3 < 1/2) and
positive height makes lowering fail with a division by zero. -/
theorem cornerDrawOn_zero_division_witness :
    cornerDrawOn ⟨0, 0, 0, 10, 1, 1, 3, 3/4, 1, 0, none, none⟩ =
      .error .zeroDivision :=
  cornerDrawOn_zero_division _ (by norm_num) (by norm_num) (by norm_num)

/-! ## Well-gatedness of every shape lowering (C3) -/

/-- A lowering result is well-gated when it either raised (producing no
instruction program at all) or produced a well-gated program. -/
def wellGatedResult (e : Except PyError Program) : Bool :=
  match e with
  | .error _ => true
  | .ok p => wellGated p

theorem runGate_moves (g : Bool) (F E : Option ℚ) (cs : List Coord) :
    runGate g (cs.map (fun c => Instruction.move c F E)) = some g := by
  induction cs with
  | nil => rfl
  | cons c rest ih => simp [runGate, ih]

theorem polyLineDrawOn_wellGated {line : List Coord} {F E : Option ℚ}
    {p : Program} (h : polyLineDrawOn line F E = .ok p) : wellGated p := by
  cases line with
  | nil => simp [polyLineDrawOn] at h
  | cons c0 rest =>
    simp only [polyLineDrawOn, Except.ok.injEq] at h
    subst h
    simp [wellGated, runGate, runGate_append, runGate_moves]

theorem polyLinesAux_wellGated {F E : Option ℚ} :
    ∀ {i : ℕ} {ls : List (List Coord)} {p : Program},
      polyLinesAux F E i ls = .ok p → wellGated p := by
  intro i ls
  induction ls generalizing i with
  | nil =>
    intro p h
    simp only [polyLinesAux, Except.ok.injEq] at h
    subst h
    exact wellGated_nil
  | cons l rest ih =>
    intro p h
    simp only [polyLinesAux, bind, Except.bind] at h
    cases h1 : polyLineDrawOn l F E with
    | error e => rw [h1] at h; exact absurd h (by simp)
    | ok p1 =>
      rw [h1] at h
      cases h2 : polyLinesAux F E (i + 1) rest with
      | error e => rw [h2] at h; exact absurd h (by simp)
      | ok q =>
        rw [h2] at h
        simp only [Except.ok.injEq] at h
        subst h
        exact wellGated_append
          (wellGated_comment_cons _ (polyLineDrawOn_wellGated h1)) (ih h2)

theorem polyLinesDrawOn_wellGated {lines : List (List Coord)}
    {F E : Option ℚ} {p : Program} (h : polyLinesDrawOn lines F E = .ok p) :
    wellGated p :=
  polyLinesAux_wellGated h

theorem layersProgram_wellGated {F E : Option ℚ} :
    ∀ {ls : List (List (List Coord))} {p : Program},
      layersProgram F E ls = .ok p → wellGated p := by
  intro ls
  induction ls with
  | nil =>
    intro p h
    simp only [layersProgram, Except.ok.injEq] at h
    subst h
    exact wellGated_nil
  | cons layer rest ih =>
    intro p h
    simp only [layersProgram, bind, Except.bind] at h
    cases h1 : polyLinesDrawOn layer F E with
    | error e => rw [h1] at h; exact absurd h (by simp)
    | ok p1 =>
      rw [h1] at h
      cases h2 : layersProgram F E rest with
      | error e => rw [h2] at h; exact absurd h (by simp)
      | ok q =>
        rw [h2] at h
        simp only [Except.ok.injEq] at h
        subst h
        exact wellGated_append (polyLinesDrawOn_wellGated h1) (ih h2)

theorem cornerDrawOn_wellGated {c : Corner} {p : Program}
    (h : cornerDrawOn c = .ok p) : wellGated p := by
  rw [cornerDrawOn] at h
  by_cases hn : cornerN c - 1 = 0
  · rw [if_pos hn] at h
    exact absurd h (by simp)
  · rw [if_neg hn] at h
    exact layersProgram_wellGated h

theorem runGate_segments (axis : String) (v : ℚ) (lines : List (ℚ × ℚ)) :
    runGate false (lines.flatMap (segmentProgram axis v)) = some false := by
  induction lines with
  | nil => rfl
  | cons l rest ih =>
    rw [List.flatMap_cons, runGate_append]
    exact ih

theorem runGate_segments_flatten (axis : String) (v : ℚ) (lines : List (ℚ × ℚ)) :
    runGate false (List.map (segmentProgram axis v) lines).flatten = some false := by
  induction lines with
  | nil => rfl
  | cons l rest ih =>
    rw [List.map_cons, List.flatten_cons, runGate_append]
    exact ih

theorem linesDrawOn_wellGated {axis : String} {secondary : Coord}
    {v a : ℚ} {lines : List (ℚ × ℚ)} {p : Program}
    (h : linesDrawOn axis secondary v a lines = .ok p) : wellGated p := by
  cases lines with
  | nil => simp [linesDrawOn] at h
  | cons l0 rest =>
    simp only [linesDrawOn, Except.ok.injEq] at h
    subst h
    simp [wellGated, runGate, runGate_append, runGate_segments,
      runGate_segments_flatten]

theorem cornerRectDrawOn_wellGated {cx cy cz rectWidth rectHeight cornerLength
    cornerWidth height layerHeight hatchSize : ℚ} {F E : Option ℚ} {p : Program}
    (h : cornerRectDrawOn cx cy cz rectWidth rectHeight cornerLength cornerWidth
      height layerHeight hatchSize F E = .ok p) : wellGated p := by
  simp only [cornerRectDrawOn, bind, Except.bind] at h
  cases h1 : cornerDrawOn (rectCorner cx cy cz (-rectWidth / 2) (-rectHeight / 2)
      cornerLength cornerWidth height layerHeight hatchSize 1 0 F E) with
  | error e => rw [h1] at h; exact absurd h (by simp)
  | ok ptl =>
    rw [h1] at h
    cases h2 : cornerDrawOn (rectCorner cx cy cz (rectWidth / 2) (-rectHeight / 2)
        cornerLength cornerWidth height layerHeight hatchSize 0 1 F E) with
    | error e => rw [h2] at h; exact absurd h (by simp)
    | ok ptr =>
      rw [h2] at h
      cases h3 : cornerDrawOn (rectCorner cx cy cz (rectWidth / 2) (rectHeight / 2)
          cornerLength cornerWidth height layerHeight hatchSize (-1) 0 F E) with
      | error e => rw [h3] at h; exact absurd h (by simp)
      | ok pbr =>
        rw [h3] at h
        cases h4 : cornerDrawOn (rectCorner cx cy cz (-rectWidth / 2) (rectHeight / 2)
            cornerLength cornerWidth height layerHeight hatchSize 0 (-1) F E) with
        | error e => rw [h4] at h; exact absurd h (by simp)
        | ok pbl =>
          rw [h4] at h
          simp only [Except.ok.injEq] at h
          subst h
          exact wellGated_append (wellGated_append (wellGated_append
            (wellGated_comment_cons _ (cornerDrawOn_wellGated h1))
            (wellGated_comment_cons _ (cornerDrawOn_wellGated h2)))
            (wellGated_comment_cons _ (cornerDrawOn_wellGated h3)))
            (wellGated_comment_cons _ (cornerDrawOn_wellGated h4))

theorem wellGatedResult_of_ok {e : Except PyError Program}
    (h : ∀ p, e = .ok p → wellGated p) : wellGatedResult e := by
  cases e with
  | error _ => rfl
  | ok p => exact h p rfl

/-- C3: every shape lowering in the library — `SingleLine`,
`XLines`/`YLines` (any sweep axis), `PolyLine`, `PolyLines`,
`HatchedCorner`, `CornerRectangle`, `VerticalLine` — produces a
well-gated instruction sequence: starting from laser-off, every
`LaserGate(on)` is followed by exactly one `LaserGate(off)` with no
other gate instruction between them, and no `LaserGate(off)` occurs on
an already-closed gate.  Lowerings that raise produce no program at all.
The emitted instruction list does not depend on the coordinate system,
which the source threads through as an opaque frame token, so this holds
for every coordinate system. -/
theorem all_drawOn_wellGated (start stop : Coord) (F E : Option ℚ)
    (axis : String) (secondary : Coord) (v a : ℚ) (lines : List (ℚ × ℚ))
    (line : List Coord) (plines : List (List Coord)) (c : Corner)
    (cx cy cz rectWidth rectHeight cornerLength cornerWidth height
      layerHeight hatchSize px py zMin zMax : ℚ) :
    wellGated (singleLineDrawOn start stop F E) ∧
    wellGatedResult (linesDrawOn axis secondary v a lines) ∧
    wellGatedResult (polyLineDrawOn line F E) ∧
    wellGatedResult (polyLinesDrawOn plines F E) ∧
    wellGatedResult (cornerDrawOn c) ∧
    wellGatedResult (cornerRectDrawOn cx cy cz rectWidth rectHeight
      cornerLength cornerWidth height layerHeight hatchSize F E) ∧
    wellGated (verticalLineDrawOn px py zMin zMax F) :=
  ⟨by simp [wellGated, singleLineDrawOn, runGate],
    wellGatedResult_of_ok (fun _ h => linesDrawOn_wellGated h),
    wellGatedResult_of_ok (fun _ h => polyLineDrawOn_wellGated h),
    wellGatedResult_of_ok (fun _ h => polyLinesDrawOn_wellGated h),
    wellGatedResult_of_ok (fun _ h => cornerDrawOn_wellGated h),
    wellGatedResult_of_ok (fun _ h => cornerRectDrawOn_wellGated h),
    by simp [wellGated, verticalLineDrawOn, runGate]⟩

/-! ## Plane fitter (`PlaneFit` in `tools/plane.py`) -/

/-- The normal system `AᵀA params = Aᵀ b` of the least-squares problem
solved by `PlaneFit.__init__`, where the design matrix `A` has rows
`(x, y, 1)` and the target vector `b` holds the z values.  `AᵀA` is
symmetric, so six entries `m11 … m33` suffice; `v1, v2, v3` is `Aᵀ b`. -/
structure NormalSystem where
  m11 : ℚ
  m12 : ℚ
  m13 : ℚ
  m22 : ℚ
  m23 : ℚ
  m33 : ℚ
  v1 : ℚ
  v2 : ℚ
  v3 : ℚ
  deriving Repr, DecidableEq

def normalSystem : List (ℚ × ℚ × ℚ) → NormalSystem
  | [] => ⟨0, 0, 0, 0, 0, 0, 0, 0, 0⟩
  | (x, y, z) :: rest =>
    let s := normalSystem rest
    ⟨s.m11 + x ^ 2, s.m12 + x * y, s.m13 + x,
     s.m22 + y ^ 2, s.m23 + y, s.m33 + 1,
     s.v1 + x * z, s.v2 + y * z, s.v3 + z⟩

def NormalSystem.det (s : NormalSystem) : ℚ :=
  s.m11 * (s.m22 * s.m33 - s.m23 ^ 2)
    - s.m12 * (s.m12 * s.m33 - s.m23 * s.m13)
    + s.m13 * (s.m12 * s.m23 - s.m22 * s.m13)

/-- Cramer's rule for the (symmetric) normal system. -/
def NormalSystem.solve (s : NormalSystem) : ℚ × ℚ × ℚ :=
  ((s.v1 * (s.m22 * s.m33 - s.m23 ^ 2)
      - s.m12 * (s.v2 * s.m33 - s.v3 * s.m23)
      + s.m13 * (s.v2 * s.m23 - s.v3 * s.m22)) / s.det,
   (s.m11 * (s.v2 * s.m33 - s.v3 * s.m23)
      - s.v1 * (s.m12 * s.m33 - s.m23 * s.m13)
      + s.m13 * (s.m12 * s.v3 - s.v2 * s.m13)) / s.det,
   (s.m11 * (s.m22 * s.v3 - s.m23 * s.v2)
      - s.m12 * (s.m12 * s.v3 - s.m13 * s.v2)
      + s.v1 * (s.m12 * s.m23 - s.m22 * s.m13)) / s.det)

/-- Modelled from the spec: `np.linalg.lstsq` (an external numerical
routine) "solve[s] the linear least-squares system for
(slope_x, slope_y, z0) (minimum-norm solution when
underdetermined/rank-deficient)".  Least-squares solutions are exactly
the solutions of the normal equations `AᵀA p = Aᵀ b`: when `AᵀA` is
invertible the unique solution is given by Cramer's rule, and when
`AᵀA` is singular with `Aᵀ b = 0` the zero vector solves the normal
equations and is trivially the minimum-norm solution.  The remaining
case (singular `AᵀA` with `Aᵀ b ≠ 0`) is not exercised by any claim and
also returns `0` here. -/
def lstsqParams (pts : List (ℚ × ℚ × ℚ)) : ℚ × ℚ × ℚ :=
  let s := normalSystem pts
  if s.det ≠ 0 then s.solve else (0, 0, 0)

/-- `PlaneFit.getz`: `np.dot(self.params, [x, y, 1])`. -/
def getz (params : ℚ × ℚ × ℚ) (x y : ℚ) : ℚ :=
  params.1 * x + params.2.1 * y + params.2.2

/-- The cross product used for the surface normal. -/
def cross (u v : ℚ × ℚ × ℚ) : ℚ × ℚ × ℚ :=
  (u.2.1 * v.2.2 - u.2.2 * v.2.1,
   u.2.2 * v.1 - u.1 * v.2.2,
   u.1 * v.2.1 - u.2.1 * v.1)

/-- The surface normal of `PlaneFit.__init__`:
`np.cross(getvec(1,0) - getvec(0,0), getvec(0,1) - getvec(0,0))`. -/
def planeNormal (params : ℚ × ℚ × ℚ) : ℚ × ℚ × ℚ :=
  let p1 := ((1 : ℚ) - 0, (0 : ℚ) - 0, getz params 1 0 - getz params 0 0)
  let p2 := ((0 : ℚ) - 0, (1 : ℚ) - 0, getz params 0 1 - getz params 0 0)
  cross p1 p2

/-- `np.max(np.abs(dev))` (`PlaneFit.max_dev`); the fold base 0 is never
the maximum for a nonempty deviation list since `|d| ≥ 0`. -/
def maxAbs (l : List ℚ) : ℚ := l.foldr (fun q acc => max |q| acc) 0

/-- The results of `PlaneFit.__init__` that are expressible over `ℚ`:
the fitted parameters, the residual vector `A·params - b`, its maximum
absolute entry, and the sum of its squares.  The reported mean deviation
is `avg = sqrt(sumSqDev) / len(dev)`, so `avg = 0` iff `sumSqDev = 0`;
the tilt ratio and the polar/azimuth angles involve `sqrt`/`arctan2` and
are treated separately (`planeNormal`, `wrapPhi`). -/
structure PlaneFitResult where
  params : ℚ × ℚ × ℚ
  dev : List ℚ
  maxDev : ℚ
  sumSqDev : ℚ
  deriving Repr, DecidableEq

/-- `PlaneFit.__init__` up to its rational-valued results: there is no
error branch in the source — the only way it can raise is the
`IndexError` from `A[:,-1]` on an empty input (a 1-d empty array).
Rank-deficient input is NOT rejected: `np.linalg.lstsq` silently
returns the minimum-norm solution. -/
def planeFit (pts : List (ℚ × ℚ × ℚ)) : Except PyError PlaneFitResult :=
  match pts with
  | [] => .error .indexError
  | _ =>
    let params := lstsqParams pts
    let dev := pts.map (fun p => getz params p.1 p.2.1 - p.2.2)
    .ok ⟨params, dev, maxAbs dev, (dev.map (fun d => d ^ 2)).sum⟩

/-- Python `%` with a positive modulus (result in `[0, m)`). -/
def pythonMod (a m : ℚ) : ℚ := a - m * ⌊a / m⌋

/-- The azimuth post-processing of `PlaneFit.__init__`:
`self.phi = (self.phi % 360) - 180` applied to
`phi = atan2(normal_y, normal_x)` in degrees. -/
def wrapPhi (phi : ℚ) : ℚ := pythonMod phi 360 - 180

/-! ## Claims C6, C7, C8 -/

/-- Samples lying exactly on the plane `z = sx·x + sy·y + z0` satisfy
the normal equations with parameters `(sx, sy, z0)`. -/
theorem normalSystem_eq_of_plane (pts : List (ℚ × ℚ × ℚ)) (sx sy z0 : ℚ)
    (h : ∀ p ∈ pts, p.2.2 = sx * p.1 + sy * p.2.1 + z0) :
    ((normalSystem pts).m11 * sx + (normalSystem pts).m12 * sy
      + (normalSystem pts).m13 * z0 = (normalSystem pts).v1) ∧
    ((normalSystem pts).m12 * sx + (normalSystem pts).m22 * sy
      + (normalSystem pts).m23 * z0 = (normalSystem pts).v2) ∧
    ((normalSystem pts).m13 * sx + (normalSystem pts).m23 * sy
      + (normalSystem pts).m33 * z0 = (normalSystem pts).v3) := by
  induction pts with
  | nil => norm_num [normalSystem]
  | cons p rest ih =>
    obtain ⟨x, y, z⟩ := p
    have hz : z = sx * x + sy * y + z0 := h (x, y, z) (by simp)
    have hrest : ∀ q ∈ rest, q.2.2 = sx * q.1 + sy * q.2.1 + z0 :=
      fun q hq => h q (by simp [hq])
    obtain ⟨ih1, ih2, ih3⟩ := ih hrest
    refine ⟨?_, ?_, ?_⟩ <;> simp only [normalSystem]
    · linear_combination ih1 - x * hz
    · linear_combination ih2 - y * hz
    · linear_combination ih3 - hz

/-- Cramer's rule recovers the unique solution of a nonsingular normal
system. -/
theorem NormalSystem.solve_of_eq (s : NormalSystem) (a b c : ℚ)
    (hdet : s.det ≠ 0)
    (h1 : s.m11 * a + s.m12 * b + s.m13 * c = s.v1)
    (h2 : s.m12 * a + s.m22 * b + s.m23 * c = s.v2)
    (h3 : s.m13 * a + s.m23 * b + s.m33 * c = s.v3) :
    s.solve = (a, b, c) := by
  unfold NormalSystem.solve
  refine Prod.ext ?_ (Prod.ext ?_ ?_) <;> simp only
  · rw [div_eq_iff hdet, ← h1, ← h2, ← h3, NormalSystem.det]
    ring
  · rw [div_eq_iff hdet, ← h1, ← h2, ← h3, NormalSystem.det]
    ring
  · rw [div_eq_iff hdet, ← h1, ← h2, ← h3, NormalSystem.det]
    ring

theorem maxAbs_zero {l : List ℚ} (h : ∀ d ∈ l, d = 0) : maxAbs l = 0 := by
  induction l with
  | nil => rfl
  | cons d rest ih =>
    have hd : d = 0 := h d (by simp)
    have : maxAbs rest = 0 := ih (fun q hq => h q (by simp [hq]))
    simp [maxAbs] at this ⊢
    simp [hd, this]

theorem sumSq_zero {l : List ℚ} (h : ∀ d ∈ l, d = 0) :
    (l.map (fun d => d ^ 2)).sum = 0 := by
  induction l with
  | nil => rfl
  | cons d rest ih =>
    have hd : d = 0 := h d (by simp)
    have hr := ih (fun q hq => h q (by simp [hq]))
    simp [hd, hr]

/-- C6: if every sample lies exactly on the plane
`z = sx·x + sy·y + z0` and the samples are non-collinear (formalized as
the nonsingularity of the normal matrix `AᵀA`, which holds exactly when
at least 3 samples have affinely independent lateral positions), then
the fit returns exactly `(sx, sy, z0)`, `getz` reproduces every
sample's z, every residual is 0, the maximum deviation is 0 and the sum
of squared deviations is 0 (hence the mean deviation
`sqrt(sumSqDev)/n` is 0). -/
theorem planeFit_exact_roundtrip (pts : List (ℚ × ℚ × ℚ)) (sx sy z0 : ℚ)
    (hplane : ∀ p ∈ pts, p.2.2 = sx * p.1 + sy * p.2.1 + z0)
    (hrank : (normalSystem pts).det ≠ 0) :
    ∃ r, planeFit pts = .ok r ∧ r.params = (sx, sy, z0) ∧
      (∀ p ∈ pts, getz r.params p.1 p.2.1 = p.2.2) ∧
      (∀ d ∈ r.dev, d = 0) ∧ r.maxDev = 0 ∧ r.sumSqDev = 0 := by
  have hparams : lstsqParams pts = (sx, sy, z0) := by
    rw [lstsqParams]
    simp only [if_pos hrank]
    obtain ⟨h1, h2, h3⟩ := normalSystem_eq_of_plane pts sx sy z0 hplane
    exact NormalSystem.solve_of_eq _ sx sy z0 hrank h1 h2 h3
  cases pts with
  | nil =>
    exact absurd hrank (by norm_num [normalSystem, NormalSystem.det])
  | cons p rest =>
    refine ⟨_, rfl, ?_, ?_, ?_, ?_, ?_⟩
    · exact hparams
    · intro q hq
      rw [hparams, getz]
      have := hplane q hq
      simp only
      linarith
    · intro d hd
      simp only [List.mem_map] at hd
      obtain ⟨q, hq, rfl⟩ := hd
      rw [hparams, getz]
      have := hplane q hq
      simp only
      linarith
    · apply maxAbs_zero
      intro d hd
      simp only [List.mem_map] at hd
      obtain ⟨q, hq, rfl⟩ := hd
      rw [hparams, getz]
      have := hplane q hq
      simp only
      linarith
    · apply sumSq_zero
      intro d hd
      simp only [List.mem_map] at hd
      obtain ⟨q, hq, rfl⟩ := hd
      rw [hparams, getz]
      have := hplane q hq
      simp only
      linarith

/-- Witness for C6: the plane `z = 0.1·x − 0.05·y + 10` sampled at
(0,0), (1,0), (0,1) is recovered exactly, with zero deviations. -/
theorem planeFit_exact_roundtrip_witness :
    ∃ r, planeFit [((0 : ℚ), (0 : ℚ), (10 : ℚ)), (1, 0, 101/10), (0, 1, 199/20)] =
        .ok r ∧
      r.params = (1/10, -1/20, 10) ∧ r.maxDev = 0 ∧ r.sumSqDev = 0 := by
  obtain ⟨r, hfit, hp, -, -, hmax, hsum⟩ :=
    planeFit_exact_roundtrip
      [((0 : ℚ), (0 : ℚ), (10 : ℚ)), (1, 0, 101/10), (0, 1, 199/20)]
      (1/10) (-1/20) 10 (by norm_num)
      (by norm_num [normalSystem, NormalSystem.det])
  exact ⟨r, hfit, hp, hmax, hsum⟩

/-- C7: the code's azimuth is NOT normalized into (−180°, 180°] — the
post-processing `(phi % 360) - 180` shifts every azimuth by 180°
(mapping into [−180°, 180°)) instead of wrapping it.  For samples on
the plane `z = x` the fitted normal is `(−1, 0, 1)`, whose lateral
projection points along −x; `atan2(0, −1)` is exactly 180°, but the
code's wrap maps 180° to 0° (and e.g. 90° to −90°), contradicting both
the claim and the iterative wrap in the source's own commented-out
code. -/
theorem azimuth_wrap_is_shift :
    (∃ r, planeFit [((0 : ℚ), (0 : ℚ), (0 : ℚ)), (1, 0, 1), (0, 1, 0)] = .ok r ∧
      r.params = (1, 0, 0) ∧ planeNormal r.params = (-1, 0, 1)) ∧
    wrapPhi 180 = 0 ∧ wrapPhi 90 = -90 ∧ (0 : ℚ) ≠ 180 := by
  have hdet :
      (normalSystem [((0 : ℚ), (0 : ℚ), (0 : ℚ)), (1, 0, 1), (0, 1, 0)]).det ≠ 0 := by
    norm_num [normalSystem, NormalSystem.det]
  have hp : lstsqParams [((0 : ℚ), (0 : ℚ), (0 : ℚ)), (1, 0, 1), (0, 1, 0)] =
      (1, 0, 0) := by
    rw [lstsqParams]
    simp only [if_pos hdet]
    exact NormalSystem.solve_of_eq _ 1 0 0 hdet
      (by norm_num [normalSystem]) (by norm_num [normalSystem])
      (by norm_num [normalSystem])
  refine ⟨⟨_, rfl, hp, ?_⟩, ?_, ?_, by norm_num⟩
  · rw [hp]
    norm_num [planeNormal, cross, getz]
  · norm_num [wrapPhi, pythonMod]
  · norm_num [wrapPhi, pythonMod]

/-- C8 counterexample: three collinear samples (on the line x = y with
z = 0) are rank-deficient — the normal matrix is singular — yet the fit
raises no error and silently returns a fitted plane: the minimum-norm
least-squares solution `(0, 0, 0)` with zero residuals. -/
theorem planeFit_silent_on_collinear :
    planeFit [((0 : ℚ), (0 : ℚ), (0 : ℚ)), (1, 1, 0), (2, 2, 0)] =
      .ok ⟨(0, 0, 0), [0, 0, 0], 0, 0⟩ ∧
    (normalSystem [((0 : ℚ), (0 : ℚ), (0 : ℚ)), (1, 1, 0), (2, 2, 0)]).det = 0 := by
  have hdet :
      (normalSystem [((0 : ℚ), (0 : ℚ), (0 : ℚ)), (1, 1, 0), (2, 2, 0)]).det = 0 := by
    norm_num [normalSystem, NormalSystem.det]
  have hp : lstsqParams [((0 : ℚ), (0 : ℚ), (0 : ℚ)), (1, 1, 0), (2, 2, 0)] =
      (0, 0, 0) := by
    rw [lstsqParams, if_neg (not_not_intro hdet)]
  refine ⟨?_, hdet⟩
  simp only [planeFit]
  rw [hp]
  norm_num [getz, maxAbs]

/-- C8 (amended): the plane fit never raises on rank-deficient input —
for every non-empty sample list (including fewer than 3 non-collinear
samples) it silently returns a fitted plane, the minimum-norm
least-squares solution; only the empty list raises (`IndexError` from
`A[:,-1]` on a 1-d empty array). -/
theorem planeFit_never_raises_on_nonempty (pts : List (ℚ × ℚ × ℚ))
    (h : pts ≠ []) : ∃ r, planeFit pts = .ok r := by
  cases pts with
  | nil => exact absurd rfl h
  | cons p rest => exact ⟨_, rfl⟩

/-- Witness for the amended C8: two samples (necessarily fewer than 3
non-collinear ones) still produce a fitted plane. -/
theorem planeFit_never_raises_witness :
    ∃ r, planeFit [((0 : ℚ), (0 : ℚ), (0 : ℚ)), (1, 1, 0)] = .ok r :=
  planeFit_never_raises_on_nonempty _ (by simp)

end NFS
